import Mathlib

/-!
Shallow embedding of the perceptual near-duplicate poster matching engine in
`src/poster_matcher/` (`poster_matcher.py`, `poster_indexer.py`,
`poster_shared.py`, `gh_build_sqlite.py`).

Modelling conventions:
* Python floats are modelled as exact rationals (`Rat`); `int`s as `Int`/`Nat`.
* `imagehash.ImageHash` values (numpy bool matrices of shape `k×k` for
  `hash_size=k`) are modelled as flattened `List Bool` of length `k*k`.
* Python `try`/`except` around a computation that can raise is modelled by
  `Option`: `none` is the raising outcome.
* Python's `list.sort` is a stable sort; it is modelled by Mathlib's
  `List.insertionSort`, which is stable: `List.orderedInsert` places the newly
  inserted (earlier-in-input) element in front of every element it compares
  equal to.
-/

namespace PosterMatcher

/-- The three certainty classes returned by the decision policy
(`poster_matcher.py`, `decide`). -/
inductive Certainty where
  | CERTAIN
  | UNSURE
  | NONE
  deriving DecidableEq

/-- The `parts` dict returned by `ensemble_score` (`poster_matcher.py`,
lines 257-264): five integer Hamming distances plus the histogram
correlation. -/
structure Parts where
  dist_ph16 : Int
  dist_ph8 : Int
  dist_dh16 : Int
  dist_wh : Int
  dist_ctr : Int
  hsv_corr : Rat
  deriving DecidableEq

/-- The record `cfg["matching"]["thresholds"]`: the two configured decision
thresholds. -/
structure Thresholds where
  certain : Rat
  unsure : Rat
  deriving DecidableEq

/-- Embeds `decide(score, parts, thresholds)` from `poster_matcher.py` lines
266-274. -/
def decide (score : Rat) (parts : Parts) (thresholds : Thresholds) : Certainty :=
  if thresholds.certain ≤ score ∧
      ((parts.dist_ph16 ≤ 6 ∧ (0.92 : Rat) ≤ parts.hsv_corr) ∨
        (parts.dist_ph16 ≤ 8 ∧ parts.dist_dh16 ≤ 10 ∧ parts.dist_wh ≤ 12)) then
    .CERTAIN
  else if thresholds.unsure ≤ score then
    .UNSURE
  else
    .NONE

/-- An in-memory feature record: the candidate dicts built by
`load_candidates` and the query dict built by `compute_hashes`
(`poster_matcher.py`).  The five hashes are flattened bit matrices
(`imagehash` with `hash_size=k` yields a `k×k` bool matrix, so `phash16`,
`dhash16`, `whash`, `center_phash16` have 256 bits and `phash8` has 64 bits
when well-formed); `hsv_hist` is the flattened 16×4×4 histogram.
For the query record the identification fields are unused. -/
structure Feats where
  post_id : String
  created_utc : Int
  flair : String
  permalink : String
  phash16 : List Bool
  phash8 : List Bool
  dhash16 : List Bool
  whash : List Bool
  center_phash16 : List Bool
  hsv_hist : List Rat
  deriving DecidableEq

/-- Embeds `hamming(a, b)` (`poster_matcher.py` line 178): `a - b` on
`imagehash.ImageHash` counts the differing bits of the two bool matrices;
numpy raises on a shape mismatch, modelled as `none`. -/
def hamming (a b : List Bool) : Option Nat :=
  if a.length = b.length then
    some ((a.zip b).countP fun p => p.1 != p.2)
  else none

/-- Embeds `hsv_corr(a, b)` (`poster_matcher.py` line 181): `np.dot` of the two
flattened histograms; numpy raises when the lengths differ, modelled as
`none`. -/
def hsv_corr (a b : List Rat) : Option Rat :=
  if a.length = b.length then some ((List.zipWith (· * ·) a b).sum)
  else none

/-- Embeds `normalize_score(dist, max_d)` (`poster_matcher.py` line 184):
`max(0.0, 1.0 - dist / float(max_d))`. -/
def normalize_score (dist : Rat) (max_d : Rat) : Rat :=
  max 0 (1 - dist / max_d)

/-- The record `cfg["matching"]["weights"]`: the six configured ensemble
weights. -/
structure Weights where
  phash16 : Rat
  phash8 : Rat
  dhash16 : Rat
  whash : Rat
  center : Rat
  hsv : Rat
  deriving DecidableEq

/-- Sum of the six configured weights; `ensemble_score` yields exactly this
fused score when every component similarity is 1. -/
def weightTotal (w : Weights) : Rat :=
  w.phash16 + w.phash8 + w.dhash16 + w.whash + w.center + w.hsv

/-- Embeds `ensemble_score(q, c, weights)` (`poster_matcher.py` lines 238-264).
The `try`/`except` that re-raises `ValueError` when a component fails is
modelled by `Option`. -/
def ensemble_score (q c : Feats) (w : Weights) : Option (Rat × Parts) := do
  let d_ph16 ← hamming q.phash16 c.phash16
  let d_ph8 ← hamming q.phash8 c.phash8
  let d_dh16 ← hamming q.dhash16 c.dhash16
  let d_wh ← hamming q.whash c.whash
  let d_ctr ← hamming q.center_phash16 c.center_phash16
  let corr ← hsv_corr q.hsv_hist c.hsv_hist
  let s : Rat :=
    w.phash16 * normalize_score (d_ph16 : Rat) 64 +
    w.phash8 * normalize_score (d_ph8 : Rat) 32 +
    w.dhash16 * normalize_score (d_dh16 : Rat) 64 +
    w.whash * normalize_score (d_wh : Rat) 64 +
    w.center * normalize_score (d_ctr : Rat) 64 +
    w.hsv * corr
  return (s, ⟨(d_ph16 : Int), (d_ph8 : Int), (d_dh16 : Int), (d_wh : Int), (d_ctr : Int), corr⟩)

/-- The `(candidate, d_ph16, corr)` triples `res` collected by `shortlist`
(`poster_matcher.py` lines 226-234) before sorting: a candidate is kept when
`d_ph16 <= ph_max or corr >= hsv_min`; the surrounding `try`/`except`
(a candidate whose metrics cannot be computed is skipped) is the `none`
branch of the `Option` chain. -/
def shortlistKept (cands : List Feats) (q : Feats) (ph_max : Int) (hsv_min : Rat) :
    List (Feats × Nat × Rat) :=
  cands.filterMap fun c =>
    match hamming q.phash16 c.phash16, hsv_corr q.hsv_hist c.hsv_hist with
    | some d, some corr =>
      if (d : Int) ≤ ph_max ∨ hsv_min ≤ corr then some (c, d, corr) else none
    | _, _ => none

/-- The sort key of `res.sort(key=lambda t: (t[1], -t[2]))`
(`poster_matcher.py` line 235): phash16 distance ascending, then histogram
correlation descending. -/
def slOrder (x y : Feats × Nat × Rat) : Prop :=
  x.2.1 < y.2.1 ∨ (x.2.1 = y.2.1 ∧ y.2.2 ≤ x.2.2)

instance : DecidableRel slOrder := fun x y =>
  inferInstanceAs (Decidable (x.2.1 < y.2.1 ∨ (x.2.1 = y.2.1 ∧ y.2.2 ≤ x.2.2)))

instance : IsTotal (Feats × Nat × Rat) slOrder := by
  constructor
  intro a b
  unfold slOrder
  rcases lt_trichotomy a.2.1 b.2.1 with h | h | h
  · exact Or.inl (Or.inl h)
  · rcases le_total b.2.2 a.2.2 with h2 | h2
    · exact Or.inl (Or.inr ⟨h, h2⟩)
    · exact Or.inr (Or.inr ⟨h.symm, h2⟩)
  · exact Or.inr (Or.inl h)

instance : IsTrans (Feats × Nat × Rat) slOrder := by
  constructor
  intro a b c hab hbc
  unfold slOrder at *
  rcases hab with h1 | ⟨h1, h1c⟩ <;> rcases hbc with h2 | ⟨h2, h2c⟩
  · exact Or.inl (h1.trans h2)
  · exact Or.inl (h2 ▸ h1)
  · exact Or.inl (h1 ▸ h2)
  · exact Or.inr ⟨h1.trans h2, h2c.trans h1c⟩

/-- Embeds `shortlist(cands, q_feats, cfg)` (`poster_matcher.py` lines 223-236):
keep, sort by `(t[1], -t[2])` (stably), truncate to
`cfg["matching"]["shortlist"]["max_candidates"]`, and drop the metric
columns. -/
def shortlist (cands : List Feats) (q : Feats) (ph_max : Int) (hsv_min : Rat)
    (max_candidates : Nat) : List Feats :=
  ((List.insertionSort slOrder (shortlistKept cands q ph_max hsv_min)).take
    max_candidates).map Prod.fst

/-- The ordering used by `scored.sort(key=lambda t: t[0], reverse=True)`
(`poster_matcher.py` line 362): fused score descending; `reverse=True` keeps
Python's sort stable, so equal scores keep their shortlist order. -/
def scoreOrder (x y : Rat × Parts × Feats) : Prop := y.1 ≤ x.1

instance : DecidableRel scoreOrder := fun x y =>
  inferInstanceAs (Decidable (y.1 ≤ x.1))

instance : IsTotal (Rat × Parts × Feats) scoreOrder :=
  ⟨fun a b => (le_total b.1 a.1).imp (fun h => h) fun h => h⟩

instance : IsTrans (Rat × Parts × Feats) scoreOrder :=
  ⟨fun _ _ _ hab hbc => le_trans hbc hab⟩

/-- The best-candidate selection of `run_match` (`poster_matcher.py` lines
362-369): sort the scored shortlist by fused score descending (stable) and
take the first entry, if any. -/
def runBest (scored : List (Rat × Parts × Feats)) : Option (Rat × Parts × Feats) :=
  (List.insertionSort scoreOrder scored).head?

/-- The `status` computed by `run_match` (`poster_matcher.py` lines 364-368):
`"NONE"` when the scored shortlist is empty, otherwise `decide` on the best
entry. -/
def runStatus (scored : List (Rat × Parts × Feats)) (th : Thresholds) : Certainty :=
  match runBest scored with
  | none => .NONE
  | some (s, parts, _) => decide s parts th

/-- The selection rule `runBest` actually implements: the first entry of the
scored list whose fused score is maximal (a stable descending sort puts the
earliest maximal-score entry first). -/
def firstMaxByScore : List (Rat × Parts × Feats) → Option (Rat × Parts × Feats)
  | [] => none
  | x :: xs =>
    match firstMaxByScore xs with
    | none => some x
    | some m => if m.1 ≤ x.1 then some x else some m

/-- A persisted `hsv_hist` BLOB as seen by `np.frombuffer(..., dtype=np.float32)`
in `load_candidates`: either it decodes to a float vector (byte length
divisible by 4) or it is malformed (`np.frombuffer` raises). -/
inductive Blob where
  | floats (vals : List Rat)
  | malformed
  deriving DecidableEq

/-- One row of the `posters` table (`poster_indexer.py` DDL lines 219-239,
duplicated in `gh_build_sqlite.py`); also the record dict passed to
`db_upsert`. -/
structure Row where
  post_id : String
  created_utc : Int
  author : String
  flair : String
  permalink : String
  image_url : String
  width : Int
  height : Int
  phash16 : String
  phash8 : String
  dhash16 : String
  whash_haar : String
  center_phash16 : String
  hsv_hist : Blob
  meta_json : String
  deriving DecidableEq

/-- The `ON CONFLICT(post_id) DO UPDATE SET` clause of `db_upsert`
(`poster_indexer.py` lines 256-264, identical in `gh_build_sqlite.py` lines
51-59): overwrite `image_url`, the five hash columns, `hsv_hist` and
`meta_json` from the incoming record; every other column keeps the stored
row's value. -/
def applyUpdate (row rec : Row) : Row :=
  { row with
    image_url := rec.image_url
    phash16 := rec.phash16
    phash8 := rec.phash8
    dhash16 := rec.dhash16
    whash_haar := rec.whash_haar
    center_phash16 := rec.center_phash16
    hsv_hist := rec.hsv_hist
    meta_json := rec.meta_json }

/-- Embeds `db_upsert(conn, rec)` (`poster_indexer.py` lines 250-265): `INSERT`
a full row keyed by `post_id`, or on a key conflict apply the
`DO UPDATE SET` clause to the existing row.  The table is modelled as a
list of rows. -/
def db_upsert (db : List Row) (rec : Row) : List Row :=
  if ∃ row ∈ db, row.post_id = rec.post_id then
    db.map fun row => if row.post_id = rec.post_id then applyUpdate row rec else row
  else
    db ++ [rec]

/-- One hex digit, as accepted by Python's `int(hexstr, 16)`. -/
def hexVal (c : Char) : Option Nat :=
  if '0' ≤ c ∧ c ≤ '9' then some (c.toNat - '0'.toNat)
  else if 'a' ≤ c ∧ c ≤ 'f' then some (c.toNat - 'a'.toNat + 10)
  else if 'A' ≤ c ∧ c ≤ 'F' then some (c.toNat - 'A'.toNat + 10)
  else none

/-- Embeds `imagehash.hex_to_hash(hexstr)`: requires a nonempty all-hex string whose
bit count `4 * len` is a perfect square (the library asserts
`hash_size ** 2 == len * 4`), and yields the `4 * len` bits of the value,
most significant first.  Any failure (assert, or `int(hexstr, 16)` raising)
is `none`; the callers wrap the call in `try`/`except`. -/
def hex_to_hash (s : String) : Option (List Bool) :=
  if s.length = 0 then none
  else
    match s.data.mapM hexVal with
    | none => none
    | some ds =>
      if Nat.sqrt (4 * s.length) * Nat.sqrt (4 * s.length) = 4 * s.length then
        some (ds.flatMap fun d => [d.testBit 3, d.testBit 2, d.testBit 1, d.testBit 0])
      else none

/-- The histogram decode in `load_candidates`:
`np.frombuffer(r[9], dtype=np.float32).reshape(16,4,4)` — fails when the
blob is not a float vector or does not hold exactly 16*4*4 = 256 floats. -/
def parseBlob : Blob → Option (List Rat)
  | .floats vals => if vals.length = 256 then some vals else none
  | .malformed => none

/-- The per-row candidate parse in `load_candidates` (`poster_matcher.py`
lines 201-217): the `try` body building the candidate dict; any failing
field decode makes the whole row `none` (the `except` skips it). -/
def parseRow (r : Row) : Option Feats := do
  let ph16 ← hex_to_hash r.phash16
  let ph8 ← hex_to_hash r.phash8
  let dh16 ← hex_to_hash r.dhash16
  let wh ← hex_to_hash r.whash_haar
  let ctr ← hex_to_hash r.center_phash16
  let hist ← parseBlob r.hsv_hist
  return { post_id := r.post_id, created_utc := r.created_utc, flair := r.flair,
           permalink := r.permalink, phash16 := ph16, phash8 := ph8, dhash16 := dh16,
           whash := wh, center_phash16 := ctr, hsv_hist := hist }

/-- Embeds `load_candidates(conn, since_ts)` (`poster_matcher.py` lines 193-218):
the SQL `WHERE created_utc >= ?` range filter followed by the per-row parse
loop that skips rows whose decode raises. -/
def load_candidates (db : List Row) (since_ts : Int) : List Feats :=
  (db.filter fun r => since_ts ≤ r.created_utc).filterMap parseRow

/-- The widths the five hashes and the histogram of a feature record have
when produced by `compute_hashes` / `compute_features`: `imagehash` with
`hash_size=k` yields a `k×k` bit matrix, so `phash(hash_size=16)`,
`dhash(hash_size=16)`, `whash(hash_size=16)` and the center-crop
`phash(hash_size=16)` have 16*16 = 256 bits, `phash(hash_size=8)` has
8*8 = 64 bits, and the flattened 16×4×4 histogram has 256 entries. -/
def StoredWidths (f : Feats) : Prop :=
  f.phash16.length = 256 ∧ f.phash8.length = 64 ∧ f.dhash16.length = 256 ∧
    f.whash.length = 256 ∧ f.center_phash16.length = 256 ∧ f.hsv_hist.length = 256

instance (f : Feats) : Decidable (StoredWidths f) :=
  inferInstanceAs (Decidable (f.phash16.length = 256 ∧ f.phash8.length = 64 ∧
    f.dhash16.length = 256 ∧ f.whash.length = 256 ∧ f.center_phash16.length = 256 ∧
    f.hsv_hist.length = 256))

/-- The `img.thumbnail((1024, 1024), Image.LANCZOS)` downscale guarded by
`if max(img.size) > max_side` in `compute_hashes` / `compute_features`.
Pillow's `thumbnail` keeps the aspect ratio, rounding the shorter side to the
nearest integer (a .5 tie rounds down, since `min` prefers `floor`) and
clamping it to at least 1. -/
def thumbnailDims (w h : Nat) : Nat × Nat :=
  if max w h ≤ 1024 then (w, h)
  else if w ≤ h then (max 1 ((2 * (1024 * w) + h - 1) / (2 * h)), 1024)
  else (1024, max 1 ((2 * (1024 * h) + w - 1) / (2 * w)))

/-- The 80% center-crop size `cw, ch = int(w*0.8), int(h*0.8)` of
`compute_hashes` / `compute_features` (for the dimensions at hand,
`int(w*0.8) = ⌊4*w/5⌋` exactly; the float product `w*0.8` rounds upward by
far less than one unit, so the floor is unaffected). -/
def cropDims (w h : Nat) : Nat × Nat := (4 * w / 5, 4 * h / 5)

/-- Success of `compute_hashes` (`poster_matcher.py` lines 152-176) /
`compute_features` (`poster_shared.py` lines 125-151) as a function of the
raster dimensions.  The hash primitives (`imagehash.phash` / `dhash` /
`whash`) raise exactly on a degenerate (zero-area) raster — PIL refuses to
resample an empty image and there is no explicit dimension check in the
repository code — so extraction succeeds iff both the (possibly downscaled)
raster and its 80% center crop have positive width and height. -/
def computeHashesOk (w h : Nat) : Bool :=
  let t := thumbnailDims w h
  0 < t.1 ∧ 0 < t.2 ∧ 0 < (cropDims t.1 t.2).1 ∧ 0 < (cropDims t.1 t.2).2

/-- One HSV pixel as fed to `np.histogramdd` in `compute_hsv_hist`: three
`uint8` channel values. -/
def Pixel : Type := Fin 256 × Fin 256 × Fin 256

instance : DecidableEq Pixel :=
  inferInstanceAs (DecidableEq (Fin 256 × Fin 256 × Fin 256))

/-- The flat bin index of a pixel under `np.histogramdd(..., bins=(16,4,4),
range=((0,256),(0,256),(0,256)))` followed by C-order flattening: uniform
bins of widths 16, 64, 64. -/
def binIdx (p : Pixel) : Nat :=
  ((p.1 : Nat) / 16) * 16 + ((p.2.1 : Nat) / 64) * 4 + (p.2.2 : Nat) / 64

/-- The flattened 16×4×4 = 256 bin counts of `np.histogramdd` in
`compute_hsv_hist` (`poster_matcher.py` lines 140-144). -/
def histCounts (pixels : List Pixel) : List Nat :=
  (List.range 256).map fun i => pixels.countP fun p => binIdx p = i

/-- Embeds `hist.sum()`: the total of the bin counts, as the float it is summed
into. -/
def countsSum (counts : List Nat) : Rat :=
  (counts.map (Nat.cast : Nat → Rat)).sum

/-- Embeds `hist /= (hist.sum() + 1e-9)` (`poster_matcher.py` line 146). -/
def sumNormalize (counts : List Nat) : List Rat :=
  counts.map fun n : Nat => (n : Rat) / (countsSum counts + 1e-9)

/-- The squared Euclidean norm of a vector. -/
def sqSum (l : List Rat) : Rat := (l.map fun x => x * x).sum

/-- Embeds `norm = np.linalg.norm(hist); if norm > 0: hist = hist / norm`
(`poster_matcher.py` lines 147-149).  `np.linalg.norm` returns the
nonnegative real `norm` with `norm * norm = sqSum hist`; it is passed in as
a parameter because square roots are not rational, and the theorems carry
those two facts as hypotheses. -/
def l2rescale (hist : List Rat) (norm : Rat) : List Rat :=
  if 0 < norm then hist.map (· / norm) else hist

/-- Embeds `compute_hsv_hist(img)` (`poster_matcher.py` lines 136-150), from the
image's HSV pixel list (identical code in `poster_indexer.py` and inlined in
`poster_shared.compute_features`). -/
def compute_hsv_hist (pixels : List Pixel) (norm : Rat) : List Rat :=
  l2rescale (sumNormalize (histCounts pixels)) norm

/-! Concrete inputs used by counterexamples and witnesses. -/

/-- A score-components record used by the C3 example. -/
def exParts3 : Parts := ⟨0, 0, 0, 0, 0, 1⟩

/-- An older candidate (`created_utc = 100`). -/
def exCandOld : Feats := ⟨"old", 100, "", "", [], [], [], [], [], []⟩

/-- A newer candidate (`created_utc = 200`). -/
def exCandNew : Feats := ⟨"new", 200, "", "", [], [], [], [], [], []⟩

/-- A scored shortlist with two candidates tying on fused score 1, the older
one first in shortlist order. -/
def exScored3 : List (Rat × Parts × Feats) :=
  [(1, exParts3, exCandOld), (1, exParts3, exCandNew)]

/-- An all-zero 256-bin histogram. -/
def exHist4 : List Rat := List.replicate 256 0

/-- A query record with the widths `compute_hashes` produces and an all-zero
phash16. -/
def exQ4 : Feats :=
  ⟨"q", 0, "", "", List.replicate 256 false, List.replicate 64 false,
    List.replicate 256 false, List.replicate 256 false, List.replicate 256 false, exHist4⟩

/-- A candidate record with the same widths and an all-one phash16, so the
phash16 Hamming distance against `exQ4` is 256. -/
def exC4 : Feats :=
  ⟨"c", 0, "", "", List.replicate 256 true, List.replicate 64 false,
    List.replicate 256 false, List.replicate 256 false, List.replicate 256 false, exHist4⟩

/-- Unit ensemble weights. -/
def exW4 : Weights := ⟨1, 1, 1, 1, 1, 1⟩

/-- A stored row with dimensions 100×150. -/
def exRow5 : Row :=
  ⟨"x", 1000, "u/a", "Poster", "perma", "http-old", 100, 150,
    "aa", "b", "c", "d", "e", .floats [], "meta-old"⟩

/-- An incoming record for the same `post_id` with new dimensions 200×300. -/
def exRec5 : Row :=
  ⟨"x", 1000, "u/a", "Poster", "perma", "http-new", 200, 300,
    "ff", "f", "0", "1", "2", .floats [1], "meta-new"⟩

/-- A stored row used by the C10 example. -/
def exRow10 : Row :=
  ⟨"y", 2000, "u/b", "Poster", "link", "http-one", 640, 480,
    "11", "2", "3", "4", "5", .floats [], "meta-one"⟩

/-- An incoming record for the same `post_id` as `exRow10`, differing in every
mutable field and in the dimensions. -/
def exRec10 : Row :=
  ⟨"y", 2024, "u/c", "Other", "link2", "http-two", 1000, 2000,
    "ab", "c", "d", "e", "f", .floats [2], "meta-two"⟩

/-- A parseable row: every hash field is the 1-digit hex string `"0"`
(4 bits, a perfect square) and the histogram blob holds 256 floats. -/
def exGoodRow6 : Row :=
  ⟨"g", 50, "u/g", "Poster", "p", "u", 10, 10,
    "0", "0", "0", "0", "0", .floats (List.replicate 256 0), "m"⟩

/-- A corrupt row: its `phash16` column is not hex, so
`imagehash.hex_to_hash` raises on it. -/
def exBadRow6 : Row :=
  ⟨"b", 60, "u/b", "Poster", "p", "u", 10, 10,
    "zz", "0", "0", "0", "0", .malformed, "m"⟩

/-- A self-match query: well-formed hash widths and a unit-norm histogram
concentrated in one bin. -/
def exF8 : Feats :=
  ⟨"s", 0, "", "", List.replicate 256 false, List.replicate 64 false,
    List.replicate 256 false, List.replicate 256 false, List.replicate 256 false,
    1 :: List.replicate 255 0⟩

/-- Unit ensemble weights for the self-match example (total weight 6). -/
def exW8 : Weights := ⟨1, 1, 1, 1, 1, 1⟩

/-- Decision thresholds below the total weight 6. -/
def exTh8 : Thresholds := ⟨5, 3⟩

/-- A one-pixel image (HSV value (0,0,0)). -/
def exPix9 : List Pixel := [(0, 0, 0)]

/-- The Euclidean norm of `sumNormalize (histCounts exPix9)`: the single
nonzero bin holds `1 / (1 + 1e-9) = 10^9 / (10^9 + 1)`. -/
def exNorm9 : Rat := 1000000000 / 1000000001

/-! ## Helper lemmas -/

/-- Comparing a hash with itself succeeds with distance 0. -/
theorem hamming_self (a : List Bool) : hamming a a = some 0 := by
  unfold hamming
  rw [if_pos rfl]
  have h : ∀ l : List Bool, ((l.zip l).countP fun p => p.1 != p.2) = 0 := by
    intro l
    induction l with
    | nil => rfl
    | cons x t ih => simp [List.zip_cons_cons, List.countP_cons, ih]
  rw [h]

/-- A successful Hamming distance is bounded by the bit width. -/
theorem hamming_le {a b : List Bool} {d : Nat} (h : hamming a b = some d) :
    d ≤ a.length := by
  unfold hamming at h
  split_ifs at h with hl
  injection h with h
  subst h
  calc ((a.zip b).countP fun p => p.1 != p.2) ≤ (a.zip b).length :=
        List.countP_le_length _
    _ ≤ a.length := by rw [List.length_zip, hl]; exact min_le_right _ _

/-- The head of an ordered insertion into a nonempty list. -/
theorem head?_orderedInsert_cons {α : Type} (r : α → α → Prop) [DecidableRel r]
    (a b : α) (t : List α) :
    (List.orderedInsert r a (b :: t)).head? = some (if r a b then a else b) := by
  show (if r a b then a :: b :: t else b :: List.orderedInsert r a t).head? = _
  split_ifs <;> rfl

/-- Reduction of `firstMaxByScore` on a cons whose tail has no maximum. -/
theorem firstMaxByScore_cons_none (x : Rat × Parts × Feats)
    {xs : List (Rat × Parts × Feats)} (h : firstMaxByScore xs = none) :
    firstMaxByScore (x :: xs) = some x := by
  unfold firstMaxByScore
  rw [h]

/-- Reduction of `firstMaxByScore` on a cons whose tail has first maximum
`m`. -/
theorem firstMaxByScore_cons_some (x : Rat × Parts × Feats)
    {xs : List (Rat × Parts × Feats)} {m : Rat × Parts × Feats}
    (h : firstMaxByScore xs = some m) :
    firstMaxByScore (x :: xs) = if m.1 ≤ x.1 then some x else some m := by
  unfold firstMaxByScore
  rw [h]

/-- Only the empty list has no first maximum. -/
theorem firstMaxByScore_eq_none {l : List (Rat × Parts × Feats)}
    (h : firstMaxByScore l = none) : l = [] := by
  cases l with
  | nil => rfl
  | cons y ys =>
    exfalso
    cases hys : firstMaxByScore ys with
    | none =>
      rw [firstMaxByScore_cons_none y hys] at h
      cases h
    | some m =>
      rw [firstMaxByScore_cons_some y hys] at h
      split_ifs at h

/-- The head of the stable descending sort is the first entry of maximal
score. -/
theorem runBest_eq_firstMax (l : List (Rat × Parts × Feats)) :
    runBest l = firstMaxByScore l := by
  induction l with
  | nil => rfl
  | cons x xs ih =>
    have hsort : List.insertionSort scoreOrder (x :: xs) =
        List.orderedInsert scoreOrder x (List.insertionSort scoreOrder xs) := rfl
    cases hs : List.insertionSort scoreOrder xs with
    | nil =>
      have h2 : firstMaxByScore xs = none := by
        rw [← ih]; unfold runBest; rw [hs]; rfl
      unfold runBest
      rw [hsort, hs, firstMaxByScore_cons_none x h2]
      rfl
    | cons b t =>
      have h2 : firstMaxByScore xs = some b := by
        rw [← ih]; unfold runBest; rw [hs]; rfl
      unfold runBest
      rw [hsort, hs, head?_orderedInsert_cons, firstMaxByScore_cons_some x h2]
      unfold scoreOrder
      split_ifs <;> rfl

/-- The function `firstMaxByScore` returns a member whose fused score dominates the whole
list. -/
theorem firstMaxByScore_mem_max :
    ∀ (l : List (Rat × Parts × Feats)) (b : Rat × Parts × Feats),
      firstMaxByScore l = some b → b ∈ l ∧ ∀ x ∈ l, x.1 ≤ b.1 := by
  intro l
  induction l with
  | nil => intro b h; cases h
  | cons x xs ih =>
    intro b h
    cases hm : firstMaxByScore xs with
    | none =>
      rw [firstMaxByScore_cons_none x hm] at h
      injection h with h
      subst h
      have hxs : xs = [] := firstMaxByScore_eq_none hm
      subst hxs
      refine ⟨List.mem_singleton.mpr rfl, ?_⟩
      intro y hy
      rw [List.mem_singleton.mp hy]
    | some m =>
      rw [firstMaxByScore_cons_some x hm] at h
      obtain ⟨hmem, hmax⟩ := ih m hm
      split_ifs at h with hle
      · injection h with h
        subst h
        refine ⟨List.mem_cons_self _ _, ?_⟩
        intro y hy
        rcases List.mem_cons.mp hy with rfl | hy2
        · exact le_refl _
        · exact (hmax y hy2).trans hle
      · injection h with h
        subst h
        refine ⟨List.mem_cons_of_mem _ hmem, ?_⟩
        intro y hy
        rcases List.mem_cons.mp hy with rfl | hy2
        · exact (not_le.mp hle).le
        · exact hmax y hy2

/-- Pulling a common divisor out of a list sum. -/
theorem sum_map_div (l : List Rat) (c : Rat) :
    (l.map fun x => x / c).sum = l.sum / c := by
  induction l with
  | nil => simp
  | cons x t ih => rw [List.map_cons, List.sum_cons, List.sum_cons, ih, div_add_div_same]

/-- The sum-normalized histogram sums to `S / (S + 1e-9)` where `S` is the
total count. -/
theorem sumNormalize_sum (counts : List Nat) :
    (sumNormalize counts).sum = countsSum counts / (countsSum counts + 1e-9) := by
  unfold sumNormalize
  have h : (fun n : Nat => (n : Rat) / (countsSum counts + 1e-9)) =
      (fun x : Rat => x / (countsSum counts + 1e-9)) ∘ (Nat.cast : Nat → Rat) := rfl
  rw [h, ← List.map_map, sum_map_div]
  rfl

/-- Dividing a vector by `r` divides its squared norm by `r * r`. -/
theorem sqSum_map_div (l : List Rat) (r : Rat) :
    sqSum (l.map fun x => x / r) = sqSum l / (r * r) := by
  induction l with
  | nil => simp [sqSum]
  | cons x t ih =>
    unfold sqSum at ih ⊢
    simp only [List.map_cons, List.sum_cons]
    rw [ih, div_mul_div_comm, div_add_div_same]

/-! ## Claim theorems -/

/-- C1: `decide` returns `CERTAIN` exactly when the fused score reaches the
configured certain threshold and either (`dist_ph16 ≤ 6` and
`hsv_corr ≥ 0.92`) or (`dist_ph16 ≤ 8`, `dist_dh16 ≤ 10` and
`dist_wh ≤ 12`); `UNSURE` exactly when not `CERTAIN`-qualified and the score
reaches the unsure threshold; `NONE` otherwise — and `run_match` reports
`NONE` when the scored shortlist is empty. -/
theorem C1_decision_policy :
    (∀ (s : Rat) (p : Parts) (th : Thresholds),
      (decide s p th = .CERTAIN ↔
        th.certain ≤ s ∧
          ((p.dist_ph16 ≤ 6 ∧ (0.92 : Rat) ≤ p.hsv_corr) ∨
            (p.dist_ph16 ≤ 8 ∧ p.dist_dh16 ≤ 10 ∧ p.dist_wh ≤ 12))) ∧
      (decide s p th = .UNSURE ↔
        ¬(th.certain ≤ s ∧
          ((p.dist_ph16 ≤ 6 ∧ (0.92 : Rat) ≤ p.hsv_corr) ∨
            (p.dist_ph16 ≤ 8 ∧ p.dist_dh16 ≤ 10 ∧ p.dist_wh ≤ 12))) ∧
          th.unsure ≤ s) ∧
      (decide s p th = .NONE ↔
        ¬(th.certain ≤ s ∧
          ((p.dist_ph16 ≤ 6 ∧ (0.92 : Rat) ≤ p.hsv_corr) ∨
            (p.dist_ph16 ≤ 8 ∧ p.dist_dh16 ≤ 10 ∧ p.dist_wh ≤ 12))) ∧
          ¬th.unsure ≤ s)) ∧
    ∀ th : Thresholds, runStatus [] th = .NONE := by
  constructor
  · intro s p th
    unfold decide
    split_ifs with h1 h2 <;> simp_all
  · intro th
    rfl

/-- C2: `shortlist` keeps exactly the candidates whose phash16 distance is at
most `ph_max` or whose histogram correlation is at least `hsv_min`, sorts the
kept list by (distance ascending, correlation descending), truncates it to
`max_candidates`, and so never returns more than `max_candidates`
candidates. -/
theorem C2_shortlist (cands : List Feats) (q : Feats) (ph_max : Int)
    (hsv_min : Rat) (max_candidates : Nat) :
    (∀ c d corr,
      (c, d, corr) ∈ List.insertionSort slOrder (shortlistKept cands q ph_max hsv_min) ↔
        c ∈ cands ∧ hamming q.phash16 c.phash16 = some d ∧
          hsv_corr q.hsv_hist c.hsv_hist = some corr ∧
          ((d : Int) ≤ ph_max ∨ hsv_min ≤ corr)) ∧
    List.Sorted slOrder
      (List.insertionSort slOrder (shortlistKept cands q ph_max hsv_min)) ∧
    shortlist cands q ph_max hsv_min max_candidates =
      ((List.insertionSort slOrder (shortlistKept cands q ph_max hsv_min)).take
        max_candidates).map Prod.fst ∧
    (shortlist cands q ph_max hsv_min max_candidates).length ≤ max_candidates := by
  refine ⟨?_, List.sorted_insertionSort _ _, rfl, ?_⟩
  · intro c d corr
    rw [List.mem_insertionSort]
    unfold shortlistKept
    rw [List.mem_filterMap]
    constructor
    · rintro ⟨a, ha, hf⟩
      split at hf
      · split_ifs at hf with hcond
        injection hf with hf
        obtain ⟨rfl, h23⟩ := Prod.mk.injEq .. |>.mp hf
        obtain ⟨rfl, rfl⟩ := Prod.mk.injEq .. |>.mp h23
        exact ⟨ha, by assumption, by assumption, hcond⟩
      · cases hf
    · rintro ⟨hmem, hd, hc, hcond⟩
      refine ⟨c, hmem, ?_⟩
      rw [hd, hc]
      exact if_pos hcond
  · unfold shortlist
    rw [List.length_map, List.length_take]
    exact min_le_left _ _

/-- C3 counterexample: two scored candidates tie on fused score 1, the older
one (`created_utc = 100`) ahead of the newer one (`created_utc = 200`) in
shortlist order; `run_match`'s stable sort on score alone picks the *older*
one as best, not the newer one the claim promises. -/
theorem C3_counterexample :
    runBest exScored3 = some (1, exParts3, exCandOld) ∧
    (1, exParts3, exCandNew) ∈ exScored3 ∧
    exCandOld.created_utc < exCandNew.created_utc := by decide

/-- C3 (amended): `run_match` picks as best a candidate of maximal fused
score; a tie on fused score is broken by shortlist position (the stable sort
keeps the earlier-shortlisted candidate first), not by newer `created_at`. -/
theorem C3_amended :
    (∀ scored, runBest scored = firstMaxByScore scored) ∧
    (∀ scored b, runBest scored = some b → b ∈ scored ∧ ∀ x ∈ scored, x.1 ≤ b.1) := by
  refine ⟨runBest_eq_firstMax, ?_⟩
  intro scored b h
  rw [runBest_eq_firstMax] at h
  exact firstMaxByScore_mem_max scored b h

/-- C3 witness: the amended theorem applied to the concrete tied shortlist. -/
theorem C3_amended_witness :
    runBest exScored3 = firstMaxByScore exScored3 ∧
    (1, exParts3, exCandOld) ∈ exScored3 ∧
    ∀ x ∈ exScored3, x.1 ≤ ((1 : Rat), exParts3, exCandOld).1 := by
  refine ⟨C3_amended.1 exScored3, ?_, ?_⟩
  · exact (C3_amended.2 exScored3 (1, exParts3, exCandOld) (by decide)).1
  · exact (C3_amended.2 exScored3 (1, exParts3, exCandOld) (by decide)).2

set_option maxRecDepth 8000

/-- C4 counterexample: two records with exactly the widths `compute_hashes`
produces (phash16 is 16×16 = 256 bits, not 64) can be 256 bits apart on
phash16, exceeding the normalizing constant 64; the clamp branch of
`normalize_score` is then taken and the similarity is 0, not
`1 - 256/64`. -/
theorem C4_counterexample :
    StoredWidths exQ4 ∧ StoredWidths exC4 ∧
    (ensemble_score exQ4 exC4 exW4).map (fun r => r.2.dist_ph16) = some 256 ∧
    ¬(256 : Int) ≤ 64 ∧
    normalize_score 256 64 = 0 ∧
    normalize_score 256 64 ≠ 1 - 256 / 64 := by
  have h0 : normalize_score 256 64 = (0 : Rat) := by
    unfold normalize_score
    exact max_eq_left (by norm_num)
  refine ⟨by decide, by decide, by decide, by norm_num, h0, ?_⟩
  rw [h0]
  norm_num

/-- C4 (amended): for records with the widths `compute_hashes` produces,
`ensemble_score` succeeds, each Hamming distance is nonnegative and bounded
by the true bit width (256, 64, 256, 256, 256 — not the normalizing
constants 64, 32, 64, 64, 64), and every normalized similarity still lies in
`[0,1]` because `normalize_score` clamps at 0. -/
theorem C4_amended (q c : Feats) (w : Weights)
    (hq : StoredWidths q) (hc : StoredWidths c) :
    ∃ s parts, ensemble_score q c w = some (s, parts) ∧
      0 ≤ parts.dist_ph16 ∧ parts.dist_ph16 ≤ 256 ∧
      0 ≤ parts.dist_ph8 ∧ parts.dist_ph8 ≤ 64 ∧
      0 ≤ parts.dist_dh16 ∧ parts.dist_dh16 ≤ 256 ∧
      0 ≤ parts.dist_wh ∧ parts.dist_wh ≤ 256 ∧
      0 ≤ parts.dist_ctr ∧ parts.dist_ctr ≤ 256 ∧
      (∀ dist max_d : Rat, 0 ≤ dist → 0 < max_d →
        0 ≤ normalize_score dist max_d ∧ normalize_score dist max_d ≤ 1) := by
  have hxlen : ∀ {a b : List Bool} {n : Nat}, a.length = n → b.length = n →
      ∃ d, hamming a b = some d ∧ d ≤ n := by
    intro a b n hla hlb
    refine ⟨(a.zip b).countP fun p => p.1 != p.2, ?_, ?_⟩
    · unfold hamming
      rw [if_pos (hla.trans hlb.symm)]
    · calc ((a.zip b).countP fun p => p.1 != p.2) ≤ (a.zip b).length :=
          List.countP_le_length _
        _ ≤ a.length := by rw [List.length_zip]; exact min_le_left _ _
        _ = n := hla
  obtain ⟨d1, hd1, hb1⟩ := hxlen hq.1 hc.1
  obtain ⟨d2, hd2, hb2⟩ := hxlen hq.2.1 hc.2.1
  obtain ⟨d3, hd3, hb3⟩ := hxlen hq.2.2.1 hc.2.2.1
  obtain ⟨d4, hd4, hb4⟩ := hxlen hq.2.2.2.1 hc.2.2.2.1
  obtain ⟨d5, hd5, hb5⟩ := hxlen hq.2.2.2.2.1 hc.2.2.2.2.1
  have hcr : hsv_corr q.hsv_hist c.hsv_hist =
      some (List.zipWith (· * ·) q.hsv_hist c.hsv_hist).sum := by
    unfold hsv_corr
    rw [if_pos (hq.2.2.2.2.2.trans hc.2.2.2.2.2.symm)]
  refine ⟨w.phash16 * normalize_score (d1 : Rat) 64 + w.phash8 * normalize_score (d2 : Rat) 32 +
      w.dhash16 * normalize_score (d3 : Rat) 64 + w.whash * normalize_score (d4 : Rat) 64 +
      w.center * normalize_score (d5 : Rat) 64 +
      w.hsv * (List.zipWith (· * ·) q.hsv_hist c.hsv_hist).sum,
    ⟨(d1 : Int), (d2 : Int), (d3 : Int), (d4 : Int), (d5 : Int),
      (List.zipWith (· * ·) q.hsv_hist c.hsv_hist).sum⟩,
    ?_, ?_, ?_, ?_, ?_, ?_, ?_, ?_, ?_, ?_, ?_, ?_⟩
  · unfold ensemble_score
    rw [hd1, hd2, hd3, hd4, hd5, hcr]
    rfl
  · show (0 : Int) ≤ (d1 : Int)
    exact_mod_cast Nat.zero_le d1
  · show (d1 : Int) ≤ 256
    exact_mod_cast hb1
  · show (0 : Int) ≤ (d2 : Int)
    exact_mod_cast Nat.zero_le d2
  · show (d2 : Int) ≤ 64
    exact_mod_cast hb2
  · show (0 : Int) ≤ (d3 : Int)
    exact_mod_cast Nat.zero_le d3
  · show (d3 : Int) ≤ 256
    exact_mod_cast hb3
  · show (0 : Int) ≤ (d4 : Int)
    exact_mod_cast Nat.zero_le d4
  · show (d4 : Int) ≤ 256
    exact_mod_cast hb4
  · show (0 : Int) ≤ (d5 : Int)
    exact_mod_cast Nat.zero_le d5
  · show (d5 : Int) ≤ 256
    exact_mod_cast hb5
  · intro dist max_d hdist hmax
    unfold normalize_score
    constructor
    · exact le_max_left _ _
    · apply max_le
      · norm_num
      · have : 0 ≤ dist / max_d := div_nonneg hdist hmax.le
        linarith

/-- C4 witness: the amended theorem applied to the concrete 256-bit-apart
records. -/
theorem C4_amended_witness :
    StoredWidths exQ4 ∧ StoredWidths exC4 ∧
    (∃ s parts, ensemble_score exQ4 exC4 exW4 = some (s, parts) ∧
      0 ≤ parts.dist_ph16 ∧ parts.dist_ph16 ≤ 256 ∧
      0 ≤ parts.dist_ph8 ∧ parts.dist_ph8 ≤ 64 ∧
      0 ≤ parts.dist_dh16 ∧ parts.dist_dh16 ≤ 256 ∧
      0 ≤ parts.dist_wh ∧ parts.dist_wh ≤ 256 ∧
      0 ≤ parts.dist_ctr ∧ parts.dist_ctr ≤ 256 ∧
      (∀ dist max_d : Rat, 0 ≤ dist → 0 < max_d →
        0 ≤ normalize_score dist max_d ∧ normalize_score dist max_d ≤ 1)) :=
  ⟨by decide, by decide, C4_amended exQ4 exC4 exW4 (by decide) (by decide)⟩

/-- C5 counterexample: upserting a record with new dimensions 200×300 onto an
existing row with dimensions 100×150 leaves the stored dimensions at
100×150 — the `DO UPDATE SET` clause does not list `width`/`height`, so the
claim that upsert replaces the dimensions fails. -/
theorem C5_counterexample :
    exRow5.post_id = exRec5.post_id ∧
    exRec5.width = 200 ∧ exRec5.height = 300 ∧
    (db_upsert [exRow5] exRec5).map (fun r => (r.width, r.height)) = [(100, 150)] := by
  decide

/-- C5 (amended): for a record whose `post_id` already exists, upsert
replaces the image URL, all five hashes, the histogram and `meta_json` with
the new record's values, while `post_id` and `created_at` — and also the
dimensions (`width`, `height`) — keep the stored row's values. -/
theorem C5_amended (db : List Row) (rec row : Row) (hmem : row ∈ db)
    (hid : row.post_id = rec.post_id) :
    ∃ row', row' ∈ db_upsert db rec ∧
      row'.image_url = rec.image_url ∧ row'.phash16 = rec.phash16 ∧
      row'.phash8 = rec.phash8 ∧ row'.dhash16 = rec.dhash16 ∧
      row'.whash_haar = rec.whash_haar ∧ row'.center_phash16 = rec.center_phash16 ∧
      row'.hsv_hist = rec.hsv_hist ∧ row'.meta_json = rec.meta_json ∧
      row'.post_id = row.post_id ∧ row'.created_utc = row.created_utc ∧
      row'.width = row.width ∧ row'.height = row.height := by
  refine ⟨applyUpdate row rec, ?_, rfl, rfl, rfl, rfl, rfl, rfl, rfl, rfl, rfl, rfl,
    rfl, rfl⟩
  unfold db_upsert
  rw [if_pos ⟨row, hmem, hid⟩]
  have h : ((fun r => if r.post_id = rec.post_id then applyUpdate r rec else r) row) =
      applyUpdate row rec := by
    show (if row.post_id = rec.post_id then applyUpdate row rec else row) = applyUpdate row rec
    rw [if_pos hid]
  rw [← h]
  exact List.mem_map_of_mem _ hmem

/-- C5 witness: the amended theorem applied to the concrete store. -/
theorem C5_amended_witness :
    ∃ row', row' ∈ db_upsert [exRow5] exRec5 ∧
      row'.image_url = exRec5.image_url ∧ row'.phash16 = exRec5.phash16 ∧
      row'.phash8 = exRec5.phash8 ∧ row'.dhash16 = exRec5.dhash16 ∧
      row'.whash_haar = exRec5.whash_haar ∧ row'.center_phash16 = exRec5.center_phash16 ∧
      row'.hsv_hist = exRec5.hsv_hist ∧ row'.meta_json = exRec5.meta_json ∧
      row'.post_id = exRow5.post_id ∧ row'.created_utc = exRow5.created_utc ∧
      row'.width = exRow5.width ∧ row'.height = exRow5.height :=
  C5_amended [exRow5] exRec5 exRow5 (List.mem_singleton.mpr rfl) rfl

/-- C6: `load_candidates` returns exactly the parses of the rows with
`created_utc` at least the cutoff, and splicing a row whose stored
hashes/histogram fail to parse into the store does not change the result —
one bad row never blocks the rest of the scan. -/
theorem C6_load_candidates :
    (∀ (db : List Row) (ts : Int) (c : Feats),
      c ∈ load_candidates db ts ↔
        ∃ r ∈ db, ts ≤ r.created_utc ∧ parseRow r = some c) ∧
    (∀ (pre post : List Row) (bad : Row) (ts : Int), parseRow bad = none →
      load_candidates (pre ++ bad :: post) ts = load_candidates (pre ++ post) ts) := by
  constructor
  · intro db ts c
    unfold load_candidates
    rw [List.mem_filterMap]
    constructor
    · rintro ⟨r, hr, hp⟩
      rw [List.mem_filter] at hr
      exact ⟨r, hr.1, by simpa using hr.2, hp⟩
    · rintro ⟨r, hr, hts, hp⟩
      exact ⟨r, List.mem_filter.mpr ⟨hr, by simpa using hts⟩, hp⟩
  · intro pre post bad ts hbad
    unfold load_candidates
    rw [List.filter_append, List.filter_cons, List.filter_append]
    split_ifs with h
    · rw [List.filterMap_append, List.filterMap_cons, hbad, List.filterMap_append]
    · rfl

/-- C6 witness: the skip property applied to a concrete corrupt row spliced
ahead of a parseable row. -/
theorem C6_load_candidates_witness :
    parseRow exBadRow6 = none ∧
    load_candidates ([] ++ exBadRow6 :: [exGoodRow6]) 0 =
      load_candidates ([] ++ [exGoodRow6]) 0 :=
  ⟨by decide, C6_load_candidates.2 [] [exGoodRow6] exBadRow6 0 (by decide)⟩

/-- C7 counterexample: a 1×1 raster has positive width and height, yet
`compute_hashes` fails on it — `int(1*0.8) = 0`, so the 80% center crop is a
0×0 raster and the crop's phash raises.  The same happens for any raster of
width or height 1, while 2×2 already succeeds. -/
theorem C7_counterexample :
    computeHashesOk 1 1 = false ∧ computeHashesOk 1 500 = false ∧
    computeHashesOk 0 100 = false ∧ computeHashesOk 2 2 = true := by decide

/-- C7 (amended): feature extraction fails on degenerate rasters, but not
*only* on them: for an undownscaled raster (both sides at most 1024) it
succeeds exactly when both sides are at least 2, because a width or height
of 1 makes the 80% center crop degenerate; and a zero width or height always
fails.  No dedicated `InvalidImage` signal exists — the underlying library
error propagates. -/
theorem C7_amended :
    (∀ w h : Nat, w ≤ 1024 → h ≤ 1024 →
      (computeHashesOk w h = true ↔ 2 ≤ w ∧ 2 ≤ h)) ∧
    (∀ w h : Nat, w = 0 ∨ h = 0 → computeHashesOk w h = false) := by
  constructor
  · intro w h hw hh
    have ht : thumbnailDims w h = (w, h) := by
      unfold thumbnailDims
      rw [if_pos (by omega : max w h ≤ 1024)]
    simp only [computeHashesOk, ht, cropDims, decide_eq_true_eq]
    omega
  · intro w h hwh
    rcases hwh with rfl | rfl
    · by_cases hh : h ≤ 1024
      · have ht : thumbnailDims 0 h = (0, h) := by
          unfold thumbnailDims
          rw [if_pos (by omega)]
        simp only [computeHashesOk, ht, cropDims, decide_eq_false_iff_not]
        omega
      · have hdiv : (2 * (1024 * 0) + h - 1) / (2 * h) = 0 := Nat.div_eq_of_lt (by omega)
        have ht : thumbnailDims 0 h = (1, 1024) := by
          unfold thumbnailDims
          rw [if_neg (by omega), if_pos (by omega), hdiv]
          norm_num
        simp only [computeHashesOk, ht, cropDims, decide_eq_false_iff_not]
        omega
    · by_cases hw : w ≤ 1024
      · have ht : thumbnailDims w 0 = (w, 0) := by
          unfold thumbnailDims
          rw [if_pos (by omega)]
        simp only [computeHashesOk, ht, cropDims, decide_eq_false_iff_not]
        omega
      · have hdiv : (2 * (1024 * 0) + w - 1) / (2 * w) = 0 := Nat.div_eq_of_lt (by omega)
        have ht : thumbnailDims w 0 = (1024, 1) := by
          unfold thumbnailDims
          rw [if_neg (by omega), if_neg (by omega), hdiv]
          norm_num
        simp only [computeHashesOk, ht, cropDims, decide_eq_false_iff_not]
        omega

/-- C7 witness: the amended theorem applied to a 3×3 raster and to a raster
of width 0. -/
theorem C7_amended_witness :
    (computeHashesOk 3 3 = true ↔ 2 ≤ 3 ∧ 2 ≤ 3) ∧ computeHashesOk 0 7 = false :=
  ⟨C7_amended.1 3 3 (by norm_num) (by norm_num), C7_amended.2 0 7 (Or.inl rfl)⟩

/-- C8: querying a record against itself yields all five Hamming distances 0
and histogram correlation exactly 1 (the stored histogram is a unit vector),
and the decision policy returns `CERTAIN` — under the standing configuration
facts that make `CERTAIN` reachable at all, namely that the certain
threshold does not exceed the total ensemble weight. -/
theorem C8_self_match (f : Feats) (w : Weights) (th : Thresholds)
    (hunit : (f.hsv_hist.map fun x => x * x).sum = 1)
    (hth : th.certain ≤ weightTotal w) :
    ensemble_score f f w = some (weightTotal w, ⟨0, 0, 0, 0, 0, 1⟩) ∧
    decide (weightTotal w) ⟨0, 0, 0, 0, 0, 1⟩ th = .CERTAIN := by
  have hcorr : hsv_corr f.hsv_hist f.hsv_hist = some 1 := by
    unfold hsv_corr
    rw [if_pos rfl, List.zipWith_same, hunit]
  constructor
  · unfold ensemble_score
    rw [hamming_self, hamming_self, hamming_self, hamming_self, hamming_self, hcorr]
    simp only [Option.bind_eq_bind, Option.some_bind, Option.pure_def, Option.some.injEq,
      Prod.mk.injEq, Parts.mk.injEq, Nat.cast_zero, normalize_score, zero_div, sub_zero,
      mul_one, weightTotal]
    norm_num
  · unfold decide
    rw [if_pos ⟨hth, Or.inl ⟨by decide, by norm_num⟩⟩]

/-- C8 witness: the self-match theorem applied to a concrete record with a
unit histogram, unit weights (total 6) and thresholds 5/3. -/
theorem C8_self_match_witness :
    ensemble_score exF8 exF8 exW8 = some (weightTotal exW8, ⟨0, 0, 0, 0, 0, 1⟩) ∧
    decide (weightTotal exW8) ⟨0, 0, 0, 0, 0, 1⟩ exTh8 = .CERTAIN :=
  C8_self_match exF8 exW8 exTh8
    (by simp [exF8, List.map_replicate, List.sum_replicate])
    (by norm_num [exTh8, exW8, weightTotal])

/-- C9 counterexample: on a one-pixel image the bin counts are divided by
`sum + 1e-9`, so the "normalized" histogram sums to `10^9 / (10^9 + 1)`,
not exactly 1 as the claim's sum-normalization step states. -/
theorem C9_counterexample :
    exPix9 ≠ [] ∧ (sumNormalize (histCounts exPix9)).sum ≠ 1 := by
  constructor
  · decide
  · have hc : histCounts exPix9 = 1 :: List.replicate 255 0 := by decide
    have hS : countsSum (1 :: List.replicate 255 0) = 1 := by
      simp [countsSum, List.map_replicate, List.sum_replicate]
    rw [sumNormalize_sum, hc, hS]
    norm_num

/-- C9 (amended): the histogram has exactly 256 bins; the count
normalization divides by `sum + 1e-9`, making the bins sum to
`S / (S + 1e-9)` (approximately, not exactly, 1); the vector is then
rescaled to unit Euclidean length, the rescale being skipped exactly in the
all-zero case (an empty pixel list). -/
theorem C9_amended (pixels : List Pixel) (r : Rat)
    (hr0 : 0 ≤ r) (hrr : r * r = sqSum (sumNormalize (histCounts pixels))) :
    (compute_hsv_hist pixels r).length = 256 ∧
    (sumNormalize (histCounts pixels)).sum =
      countsSum (histCounts pixels) / (countsSum (histCounts pixels) + 1e-9) ∧
    (pixels ≠ [] → sqSum (compute_hsv_hist pixels r) = 1) ∧
    (pixels = [] → compute_hsv_hist pixels r = sumNormalize (histCounts pixels)) := by
  refine ⟨?_, sumNormalize_sum _, ?_, ?_⟩
  · unfold compute_hsv_hist l2rescale
    split_ifs <;> simp [sumNormalize, histCounts]
  · intro hne
    obtain ⟨p, ps, rfl⟩ := List.exists_cons_of_ne_nil hne
    have hbin : binIdx p < 256 := by
      unfold binIdx
      have h1 : (p.1 : Nat) < 256 := p.1.isLt
      have h2 : (p.2.1 : Nat) < 256 := p.2.1.isLt
      have h3 : (p.2.2 : Nat) < 256 := p.2.2.isLt
      omega
    have hS0 : 0 ≤ countsSum (histCounts (p :: ps)) := by
      apply List.sum_nonneg
      intro x hx
      obtain ⟨n, _, rfl⟩ := List.mem_map.mp hx
      exact Nat.cast_nonneg n
    have hSe : 0 < countsSum (histCounts (p :: ps)) + 1e-9 := by
      have h9 : (0 : Rat) < 1e-9 := by norm_num
      linarith
    have hcnt : 1 ≤ (p :: ps).countP fun a => binIdx a = binIdx p := by
      rw [List.countP_cons]
      simp
    have hmem : ((p :: ps).countP fun a => binIdx a = binIdx p) ∈ histCounts (p :: ps) := by
      unfold histCounts
      exact List.mem_map_of_mem _ (List.mem_range.mpr hbin)
    have hmemQ : (((p :: ps).countP fun a => binIdx a = binIdx p : Nat) : Rat) /
        (countsSum (histCounts (p :: ps)) + 1e-9) ∈ sumNormalize (histCounts (p :: ps)) := by
      unfold sumNormalize
      exact List.mem_map_of_mem _ hmem
    have hepos : 0 < (((p :: ps).countP fun a => binIdx a = binIdx p : Nat) : Rat) /
        (countsSum (histCounts (p :: ps)) + 1e-9) := by
      apply div_pos _ hSe
      exact_mod_cast hcnt
    have hsq : 0 < sqSum (sumNormalize (histCounts (p :: ps))) := by
      have hmemsq := List.mem_map_of_mem (fun x => x * x) hmemQ
      have hle := List.single_le_sum
        (l := (sumNormalize (histCounts (p :: ps))).map fun x => x * x)
        (fun x hx => by
          obtain ⟨y, _, rfl⟩ := List.mem_map.mp hx
          exact mul_self_nonneg y) _ hmemsq
      calc (0 : Rat) < _ := mul_pos hepos hepos
        _ ≤ _ := hle
    have hrpos : 0 < r := by
      rcases lt_or_eq_of_le hr0 with h | h
      · exact h
      · exfalso
        rw [← hrr, ← h] at hsq
        simp at hsq
    unfold compute_hsv_hist l2rescale
    rw [if_pos hrpos, sqSum_map_div, ← hrr, div_self (by positivity)]
  · intro hnil
    subst hnil
    have hc0 : histCounts [] = List.replicate 256 0 := by decide
    have hsq0 : sqSum (sumNormalize (histCounts [])) = 0 := by
      rw [hc0]
      simp [sumNormalize, sqSum, List.map_replicate, List.sum_replicate]
    have hr00 : r = 0 := mul_self_eq_zero.mp (hrr.trans hsq0)
    unfold compute_hsv_hist l2rescale
    rw [if_neg (by rw [hr00]; exact lt_irrefl 0)]

/-- C9 witness: the amended theorem applied to the one-pixel image, whose
sum-normalized histogram has Euclidean norm `10^9 / (10^9 + 1)` exactly. -/
theorem C9_amended_witness :
    (compute_hsv_hist exPix9 exNorm9).length = 256 ∧
    (sumNormalize (histCounts exPix9)).sum =
      countsSum (histCounts exPix9) / (countsSum (histCounts exPix9) + 1e-9) ∧
    (exPix9 ≠ [] → sqSum (compute_hsv_hist exPix9 exNorm9) = 1) ∧
    (exPix9 = [] → compute_hsv_hist exPix9 exNorm9 = sumNormalize (histCounts exPix9)) := by
  have hc : histCounts exPix9 = 1 :: List.replicate 255 0 := by decide
  refine C9_amended exPix9 exNorm9 (by norm_num [exNorm9]) ?_
  rw [hc]
  have hS : countsSum (1 :: List.replicate 255 0) = 1 := by
    simp [countsSum, List.map_replicate, List.sum_replicate]
  unfold sqSum sumNormalize
  rw [hS]
  simp only [List.map_cons, List.map_replicate, List.sum_cons, List.sum_replicate]
  norm_num [exNorm9]

/-- C10: when `db_upsert` hits an existing `post_id`, the conflict update
rewrites every row with that key through `applyUpdate`, which overwrites
exactly `image_url`, the five hash columns, `hsv_hist` and `meta_json` with
the incoming record's values and leaves `post_id`, `created_utc`, `author`,
`flair`, `permalink`, `width` and `height` untouched. -/
theorem C10_conflict_update (db : List Row) (rec row : Row) (hmem : row ∈ db)
    (hid : row.post_id = rec.post_id) :
    db_upsert db rec =
      db.map (fun r => if r.post_id = rec.post_id then applyUpdate r rec else r) ∧
    (applyUpdate row rec).post_id = row.post_id ∧
    (applyUpdate row rec).created_utc = row.created_utc ∧
    (applyUpdate row rec).author = row.author ∧
    (applyUpdate row rec).flair = row.flair ∧
    (applyUpdate row rec).permalink = row.permalink ∧
    (applyUpdate row rec).width = row.width ∧
    (applyUpdate row rec).height = row.height ∧
    (applyUpdate row rec).image_url = rec.image_url ∧
    (applyUpdate row rec).phash16 = rec.phash16 ∧
    (applyUpdate row rec).phash8 = rec.phash8 ∧
    (applyUpdate row rec).dhash16 = rec.dhash16 ∧
    (applyUpdate row rec).whash_haar = rec.whash_haar ∧
    (applyUpdate row rec).center_phash16 = rec.center_phash16 ∧
    (applyUpdate row rec).hsv_hist = rec.hsv_hist ∧
    (applyUpdate row rec).meta_json = rec.meta_json := by
  refine ⟨?_, rfl, rfl, rfl, rfl, rfl, rfl, rfl, rfl, rfl, rfl, rfl, rfl, rfl, rfl, rfl⟩
  unfold db_upsert
  rw [if_pos ⟨row, hmem, hid⟩]

/-- C10 witness: the conflict-update theorem applied to a concrete store. -/
theorem C10_conflict_update_witness :
    db_upsert [exRow10] exRec10 =
      [exRow10].map (fun r => if r.post_id = exRec10.post_id then applyUpdate r exRec10 else r) ∧
    (applyUpdate exRow10 exRec10).post_id = exRow10.post_id ∧
    (applyUpdate exRow10 exRec10).created_utc = exRow10.created_utc ∧
    (applyUpdate exRow10 exRec10).author = exRow10.author ∧
    (applyUpdate exRow10 exRec10).flair = exRow10.flair ∧
    (applyUpdate exRow10 exRec10).permalink = exRow10.permalink ∧
    (applyUpdate exRow10 exRec10).width = exRow10.width ∧
    (applyUpdate exRow10 exRec10).height = exRow10.height ∧
    (applyUpdate exRow10 exRec10).image_url = exRec10.image_url ∧
    (applyUpdate exRow10 exRec10).phash16 = exRec10.phash16 ∧
    (applyUpdate exRow10 exRec10).phash8 = exRec10.phash8 ∧
    (applyUpdate exRow10 exRec10).dhash16 = exRec10.dhash16 ∧
    (applyUpdate exRow10 exRec10).whash_haar = exRec10.whash_haar ∧
    (applyUpdate exRow10 exRec10).center_phash16 = exRec10.center_phash16 ∧
    (applyUpdate exRow10 exRec10).hsv_hist = exRec10.hsv_hist ∧
    (applyUpdate exRow10 exRec10).meta_json = exRec10.meta_json :=
  C10_conflict_update [exRow10] exRec10 exRow10 (List.mem_singleton.mpr rfl) rfl

end PosterMatcher
